import Mathlib

/-!
Verification of the sql-proxy TLS tunneling client.

This file gives a shallow embedding of the proxy's core components
(`proxy/client.go` and the inbound-mode main in the unnamed source file)
and settles the specification's claims against it:

* `myCopy` — the relay copy loop, embedded over explicit read/write scripts;
* `copyThenCloseModel` — the capacity-1 rendezvous of `copyThenClose`;
* `genVerifyPeerCertificateFunc` — the custom peer verifier, parametrised
  over the external x509 primitives (parse, chain verification);
* an interleaving machine for the shared `connectionsCounter` of `Client`
  (`admStep`/`admRun`), modelling `atomic.AddUint64` with uint64 wraparound;
* `handleConnModel` — the per-session control flow of `handleConn`
  (which endpoints get closed, where keepalive is applied, the result);
* `listenModel`/`RunModel` — the acceptor loop and the lifecycle loop;
* `shutdownModel` — the 100 ms drain poll of `Shutdown`.
-/

namespace SqlProxy

/-- Errors produced by endpoint reads/writes.  `eof` models `io.EOF`. -/
inductive NetErr where
  | eof
  | other (msg : String)
deriving DecidableEq, Repr

/-- Embedding of `myCopy` (`proxy/client.go`): the source endpoint is a script
of read results (bytes-read count paired with the error returned by that same
`Read` call); the destination is a script of write outcomes, one consumed per
`Write` of a non-empty chunk.  Returns `some (readErr, err)` exactly as the Go
function returns `(readErr bool, err error)`; `none` models a stream that never
terminates within the script. -/
def myCopy : List (Nat × Option NetErr) → List (Option NetErr) → Option (Bool × NetErr)
  | [], _ => none
  | (n, rerr) :: rs, ws =>
    if 0 < n then
      match ws with
      | [] => none
      | w :: ws2 =>
        match w with
        | some werr =>
          match rerr with
          | none => some (false, werr)
          | some e => some (true, e)
        | none =>
          match rerr with
          | some e => some (true, e)
          | none => myCopy rs ws2
    else
      match rerr with
      | some e => some (true, e)
      | none => myCopy rs ws

/-- The two copy directions of `copyThenClose`: the spawned goroutine runs
`myCopy(remote, local)` (local-to-remote), the main body runs
`myCopy(local, remote)` (remote-to-local). -/
inductive Dir where
  | localToRemote
  | remoteToLocal
deriving DecidableEq, Repr

/-- Side effects performed by one direction of `copyThenClose` after its copy
loop terminates: how many times it called `remote.Close()`, `local.Close()`,
and how many log lines (informational or error) it emitted. -/
structure RelayActions where
  closesRemote : Nat
  closesLocal : Nat
  reports : Nat
deriving DecidableEq, Repr

/-- Actions of the direction that loses the `firstErr` race: the `default`
branch of its `select` runs, which does nothing. -/
def zeroActs : RelayActions := { closesRemote := 0, closesLocal := 0, reports := 0 }

/-- Actions of the direction whose try-send on `firstErr` succeeds: one log
line (either the informational peer-closed line or `logError`), then
`remote.Close()` and `local.Close()`. -/
def cleanupActs : RelayActions := { closesRemote := 1, closesLocal := 1, reports := 1 }

/-- Per-direction actions of one execution of `copyThenClose`. -/
structure RelayOutcome where
  byLocalToRemote : RelayActions
  byRemoteToLocal : RelayActions
deriving DecidableEq, Repr

/-- One direction reaching its `select` on the capacity-1 channel `firstErr`:
if the channel already holds a value the `default` branch runs (no actions);
otherwise the send succeeds and the direction performs the cleanup. -/
def relayStep : (Bool × RelayOutcome) → Dir → (Bool × RelayOutcome)
  | (true, o), _ => (true, o)
  | (false, o), Dir.localToRemote => (true, { o with byLocalToRemote := cleanupActs })
  | (false, o), Dir.remoteToLocal => (true, { o with byRemoteToLocal := cleanupActs })

/-- Embedding of the rendezvous of `copyThenClose`: the argument lists the
directions in the order in which their copy loops terminate and reach the
`select`; the channel starts empty. -/
def copyThenCloseModel (order : List Dir) : RelayOutcome :=
  (order.foldl relayStep (false, { byLocalToRemote := zeroActs, byRemoteToLocal := zeroActs })).2

/-- Model of a parsed x509 certificate: the fields the proxy reads.
`subjectCN` is `cert.Subject.CommonName`; `issuer` names the authority that
signed it. -/
structure MCert where
  subjectCN : String
  issuer : String
deriving DecidableEq, Repr

/-- Raw certificate bytes as handed to the `VerifyPeerCertificate` callback. -/
abbrev RawBytes := List Nat

/-- A pinned root pool, identified by the names of the root authorities it
contains (the proxy builds it from the single CA cert of the bundle). -/
abbrev RootPool := List String

/-- Failure cases of the peer verifier, one per `return fmt.Errorf`/`return err`
site of `genVerifyPeerCertificateFunc`. -/
inductive VerifyErr where
  | noCertificate
  | parseFailure
  | chainFailure
  | cnMismatch (got expected : String)
deriving DecidableEq, Repr

/-- Embedding of `genVerifyPeerCertificateFunc` (`proxy/client.go`).  The two
external x509 primitives are parameters: `parseCert` models
`x509.ParseCertificate`, and `x509Verify` models `cert.Verify` applied to a
`VerifyOptions` whose roots and intermediates are the last two arguments.  The
source constructs `opts := x509.VerifyOptions{Roots: pool}`, so the
intermediates argument at the call site is `[]`.  The second list argument is
the ignored `verifiedChains` parameter of the callback.  `none` is acceptance
(the Go func returns `nil`). -/
def genVerifyPeerCertificateFunc
    (parseCert : RawBytes → Option MCert)
    (x509Verify : MCert → RootPool → List MCert → Bool)
    (instanceName : String) (pool : RootPool) :
    List RawBytes → List MCert → Option VerifyErr :=
  fun rawCerts _verifiedChains =>
    match rawCerts with
    | [] => some VerifyErr.noCertificate
    | raw0 :: _ =>
      match parseCert raw0 with
      | none => some VerifyErr.parseFailure
      | some cert =>
        if x509Verify cert pool [] then
          if cert.subjectCN = instanceName then none
          else some (VerifyErr.cnMismatch cert.subjectCN instanceName)
        else some VerifyErr.chainFailure

/-- Reference model of the x509 chain check used to witness the verifier
claims: a certificate chains to the pool when its issuer is a pinned root, or
when a supplied intermediate links it to a pinned root. -/
def chainVerify (c : MCert) (roots : RootPool) (inters : List MCert) : Bool :=
  roots.contains c.issuer ||
    inters.any fun i => c.issuer == i.subjectCN && roots.contains i.issuer

/-- A leaf certificate signed by an intermediate authority. -/
def demoLeaf : MCert := { subjectCN := "db-instance", issuer := "intermediate-ca" }

/-- The intermediate: signed by the pinned root, signs the leaf. -/
def demoInter : MCert := { subjectCN := "intermediate-ca", issuer := "pinned-root" }

/-- Parse oracle for the intermediate-chain scenario: byte string `[0]` is the
leaf, `[1]` the intermediate. -/
def demoParse : RawBytes → Option MCert :=
  fun raw => if raw = [0] then some demoLeaf else if raw = [1] then some demoInter else none

/-- Parse oracle for the direct-chain scenario: byte string `[0]` is a leaf
signed directly by the pinned root. -/
def demoParseGood : RawBytes → Option MCert :=
  fun raw =>
    if raw = [0] then some { subjectCN := "db-instance", issuer := "pinned-root" }
    else none

/-- The modulus of Go's `uint64`, the type of `Client.connectionsCounter`. -/
def U64 : Nat := 2 ^ 64

/-- Where one `handleConn` invocation stands with respect to the counter:
not yet started, started (`atomic.AddUint64(&counter, 1)` executed, with the
admission decision `MaxConnections > 0 && active > MaxConnections` recorded),
or returned (deferred decrement executed). -/
inductive SessPhase where
  | idle
  | running (admitted : Bool)
  | done
deriving DecidableEq, Repr

/-- Shared state of the admission machine: the `uint64` counter value and the
phase of each session (indexed by position). -/
structure AdmState where
  counter : Nat
  phases : List SessPhase
deriving DecidableEq, Repr

/-- Counter-relevant atomic steps of one `handleConn` invocation: the entry
increment, and the deferred decrement at return (on every exit path). -/
inductive StepLabel where
  | start (i : Nat)
  | finish (i : Nat)
deriving DecidableEq, Repr

/-- Whether a session is between its increment and its decrement. -/
def isRunning : SessPhase → Bool
  | SessPhase.running _ => true
  | _ => false

/-- Whether a session is in flight and passed the admission check. -/
def isAdmitted : SessPhase → Bool
  | SessPhase.running a => a
  | _ => false

/-- One interleaved step.  `start i`: session `i` executes
`active := atomic.AddUint64(&c.connectionsCounter, 1)` (uint64 wraparound) and
evaluates `c.MaxConnections > 0 && active > c.MaxConnections`; a true result
means the connection is refused, but the increment has already happened.
`finish i`: the deferred `atomic.AddUint64(&c.connectionsCounter, ^uint64(0))`
runs, i.e. the counter moves by 2^64 - 1 modulo 2^64. -/
def admStep (maxConns : Nat) (s : AdmState) : StepLabel → Option AdmState
  | StepLabel.start i =>
    match s.phases[i]? with
    | some SessPhase.idle =>
      let active := (s.counter + 1) % U64
      let denied := decide (0 < maxConns) && decide (maxConns < active)
      some { counter := active, phases := s.phases.set i (SessPhase.running (!denied)) }
    | _ => none
  | StepLabel.finish i =>
    match s.phases[i]? with
    | some (SessPhase.running _) =>
      some { counter := (s.counter + (U64 - 1)) % U64, phases := s.phases.set i SessPhase.done }
    | _ => none

/-- Run a whole interleaving of counter steps. -/
def admRun (maxConns : Nat) : AdmState → List StepLabel → Option AdmState
  | s, [] => some s
  | s, l :: ls =>
    match admStep maxConns s l with
    | some s2 => admRun maxConns s2 ls
    | none => none

/-- Initial state: counter zero, `n` sessions not yet started. -/
def admInit (n : Nat) : AdmState :=
  { counter := 0, phases := List.replicate n SessPhase.idle }

/-- Number of sessions currently between increment and decrement. -/
def countRunning (ps : List SessPhase) : Nat := ps.countP isRunning

/-- Number of in-flight sessions that passed the admission check. -/
def countAdmitted (ps : List SessPhase) : Nat := ps.countP isAdmitted

/-- How many `start i` labels an interleaving contains. -/
def countStart (i : Nat) (ls : List StepLabel) : Nat :=
  ls.countP fun l => match l with | StepLabel.start j => j == i | _ => false

/-- How many `finish i` labels an interleaving contains. -/
def countFinish (i : Nat) (ls : List StepLabel) : Nat :=
  ls.countP fun l => match l with | StepLabel.finish j => j == i | _ => false

/-- How many increments session `i`'s phase accounts for. -/
def startedOf : SessPhase → Nat
  | SessPhase.idle => 0
  | SessPhase.running _ => 1
  | SessPhase.done => 1

/-- How many decrements session `i`'s phase accounts for. -/
def finishedOf : SessPhase → Nat
  | SessPhase.idle => 0
  | SessPhase.running _ => 0
  | SessPhase.done => 1

/-- Invariant of the admission machine for `n` sessions: the session list
keeps its length, the counter equals the number of in-flight sessions (so the
uint64 arithmetic never wraps in either direction), and with a positive limit
the number of in-flight admitted sessions stays within it. -/
def AdmInv (maxConns n : Nat) (s : AdmState) : Prop :=
  s.phases.length = n ∧
  s.counter = countRunning s.phases ∧
  (0 < maxConns → countAdmitted s.phases ≤ maxConns)

/-- The failure kinds of one outbound `handleConn` session, one per `return
fmt.Errorf` site. -/
inductive SessErr where
  | tooManyConns
  | certFailure
  | dialFailure
  | handshakeFailure
deriving DecidableEq, Repr

/-- Environment of one `handleConn` invocation: the admission decision (from
the shared counter versus `MaxConnections`), the outcome of each fallible
stage, and the keepalive capability and outcomes of the accepted local
connection — `conn` is the only value the keepalive block inspects. -/
structure SessEnv where
  denied : Bool
  certOk : Bool
  dialOk : Bool
  localSupportsKA : Bool
  kaSetFails : Bool
  kaPeriodFails : Bool
  handshakeOk : Bool
deriving DecidableEq, Repr

/-- Observable outcome of one `handleConn` invocation: whether `conn` (the
accepted local endpoint) was closed, whether the dialed remote endpoint was
closed (directly or through `secureConn.Close`), whether the deferred counter
decrement ran, on which endpoints `SetKeepAlive(true)` succeeded, and the
session's returned error. -/
structure SessOutcome where
  localClosed : Bool
  remoteClosed : Bool
  ticketReleased : Bool
  kaSetOnLocal : Bool
  kaSetOnRemote : Bool
  result : Option SessErr
deriving DecidableEq, Repr

/-- Embedding of the control flow of `handleConn` (`proxy/client.go`), stage by
stage: denial closes `conn` and returns; a certificate-source failure returns
with no close; a dial failure closes `conn`; the keepalive block runs on
`conn` (the accepted local connection) only, logging on failure; a handshake
failure closes `secureConn` (hence the remote endpoint) and returns; on
success `copyThenClose` closes both endpoints.  The deferred decrement runs on
every path. -/
def handleConnModel (env : SessEnv) : SessOutcome :=
  if env.denied then
    { localClosed := true, remoteClosed := false, ticketReleased := true,
      kaSetOnLocal := false, kaSetOnRemote := false,
      result := some SessErr.tooManyConns }
  else if !env.certOk then
    { localClosed := false, remoteClosed := false, ticketReleased := true,
      kaSetOnLocal := false, kaSetOnRemote := false,
      result := some SessErr.certFailure }
  else if !env.dialOk then
    { localClosed := true, remoteClosed := false, ticketReleased := true,
      kaSetOnLocal := false, kaSetOnRemote := false,
      result := some SessErr.dialFailure }
  else
    if !env.handshakeOk then
      { localClosed := false, remoteClosed := true, ticketReleased := true,
        kaSetOnLocal := env.localSupportsKA && !env.kaSetFails, kaSetOnRemote := false,
        result := some SessErr.handshakeFailure }
    else
      { localClosed := true, remoteClosed := true, ticketReleased := true,
        kaSetOnLocal := env.localSupportsKA && !env.kaSetFails, kaSetOnRemote := false,
        result := none }

/-- Accept-loop events of `listen`: a successful accept (recording whether the
connection is a `*net.TCPConn`), a temporary network error, or any other
accept error. -/
inductive AcceptEv where
  | conn (isTCP : Bool)
  | tempErr
  | fatalErr (msg : String)
deriving DecidableEq, Repr

/-- Observable outcome of the `listen` loop: connections dispatched to
`connSrc`, accepted TCP connections that got keepalive enabled, whether
`l.Close()` ran, and the loop's returned error (`none` while still looping). -/
structure ListenOutcome where
  dispatched : Nat
  kaEnabled : Nat
  listenerClosed : Bool
  retErr : Option String
deriving DecidableEq, Repr

/-- The accept loop of `listen`: an accepted connection gets keepalive set when
it is TCP and is sent to `connSrc`; a temporary error sleeps the remainder of
the 10 ms budget and retries with the listener open; any other error closes
the listener and returns it. -/
def listenLoop : List AcceptEv → Nat → Nat → ListenOutcome
  | [], d, k => { dispatched := d, kaEnabled := k, listenerClosed := false, retErr := none }
  | AcceptEv.conn tcp :: evs, d, k => listenLoop evs (d + 1) (if tcp then k + 1 else k)
  | AcceptEv.tempErr :: evs, d, k => listenLoop evs d k
  | AcceptEv.fatalErr m :: _, d, k =>
    { dispatched := d, kaEnabled := k, listenerClosed := true,
      retErr := some ("error in accept: " ++ m) }

/-- Embedding of `listen`: `net.Listen` either fails — the wrapped error is
returned at once, before any accept — or the accept loop runs. -/
def listenModel (bindErr : Option String) (evs : List AcceptEv) : ListenOutcome :=
  match bindErr with
  | some e =>
    { dispatched := 0, kaEnabled := 0, listenerClosed := false,
      retErr := some ("error net.Listen: " ++ e) }
  | none => listenLoop evs 0 0

/-- Embedding of `Run`'s event loop.  The `listen` goroutine's returned error
is only logged, so it is a parameter the body never consults.  `Run` returns
(`some r`) only on context cancellation, where `r` is `none` (nil) on a clean
shutdown and the wrapped drain error otherwise; `none` means `Run` is still
looping. -/
def RunModel (_listenRetErr : Option String) (cancelled : Bool)
    (shutdownOutcome : Option (Nat × Nat)) : Option (Option String) :=
  match cancelled with
  | false => none
  | true =>
    match shutdownOutcome with
    | none => some none
    | some _ => some (some "error during shutdown")

/-- The fixed polling interval of `Shutdown`:
`time.NewTicker(100 * time.Millisecond)`. -/
def shutdownPollIntervalMs : Nat := 100

/-- Embedding of `Shutdown`: `ticks` lists the counter values read at the
successive 100 ms ticks that fire before `time.After(timeout)` does (so the
loop runs no longer than the timeout), `atTimeout` is the counter value when
the timeout fires.  A positive tick value continues the loop; a zero tick
breaks out and the final load returns success; when the timeout fires first,
the final load decides, and a failure carries the exact remaining count and
the timeout used. -/
def shutdownModel (ticks : List Nat) (atTimeout : Nat) (timeoutMs : Nat) : Option (Nat × Nat) :=
  match ticks with
  | [] => if atTimeout = 0 then none else some (atTimeout, timeoutMs)
  | v :: vs => if v = 0 then none else shutdownModel vs atTimeout timeoutMs

end SqlProxy

namespace SqlProxy

/-- C7: `myCopy` classifies its terminal outcome: a write failure on data from
a successful read yields `(readErr := false, werr)`; a failed read yields
`(readErr := true, rerr)` even when no write occurred (zero bytes read); and
when one `Read` call returns both data whose write fails and a read error, the
read error wins with `readErr := true`. -/
theorem C7_myCopy_error_classification
    (n : Nat) (hn : 0 < n) (e w : NetErr)
    (rs : List (Nat × Option NetErr)) (ws : List (Option NetErr)) :
    myCopy ((n, none) :: rs) (some w :: ws) = some (false, w)
    ∧ myCopy ((0, some e) :: rs) (some w :: ws) = some (true, e)
    ∧ myCopy ((n, some e) :: rs) (some w :: ws) = some (true, e) := by
  refine ⟨?_, ?_, ?_⟩ <;> simp [myCopy, hn]

/-- C7 witness: the three classifications at concrete scripts. -/
theorem C7_myCopy_error_classification_witness :
    myCopy [(1, none)] [some (NetErr.other "w")] = some (false, NetErr.other "w")
    ∧ myCopy [(0, some NetErr.eof)] [some (NetErr.other "w")] = some (true, NetErr.eof)
    ∧ myCopy [(1, some NetErr.eof)] [some (NetErr.other "w")] = some (true, NetErr.eof) :=
  C7_myCopy_error_classification 1 (by decide) NetErr.eof (NetErr.other "w") [] []

/-- C4: in `copyThenClose`, whichever direction terminates first claims the
capacity-1 channel and performs the whole cleanup (it closes both endpoints
once and emits the single report); the direction that loses the race performs
zero closes and zero reports.  Both termination orders of the two directions
are covered. -/
theorem C4_relay_single_cleanup :
    copyThenCloseModel [Dir.localToRemote, Dir.remoteToLocal]
        = { byLocalToRemote := cleanupActs, byRemoteToLocal := zeroActs }
    ∧ copyThenCloseModel [Dir.remoteToLocal, Dir.localToRemote]
        = { byLocalToRemote := zeroActs, byRemoteToLocal := cleanupActs }
    ∧ cleanupActs.closesRemote = 1 ∧ cleanupActs.closesLocal = 1 ∧ cleanupActs.reports = 1
    ∧ zeroActs.closesRemote = 0 ∧ zeroActs.closesLocal = 0 ∧ zeroActs.reports = 0 := by
  decide

/-- C5: the peer verifier rejects an empty presented chain, an unparseable
leaf, a leaf that does not verify against the pinned roots (this takes
precedence over the identity comparison), and a chained leaf whose CommonName
is not string-equal to the expected identity; it accepts exactly the inputs
whose leaf parses, chains, and matches the identity exactly.  Quantified over
every behaviour of the external x509 primitives. -/
theorem C5_peer_verifier_checks
    (parseCert : RawBytes → Option MCert)
    (x509Verify : MCert → RootPool → List MCert → Bool)
    (instanceName : String) (pool : RootPool) (vchains : List MCert) :
    (genVerifyPeerCertificateFunc parseCert x509Verify instanceName pool [] vchains
        = some VerifyErr.noCertificate)
    ∧ (∀ raw rest, parseCert raw = none →
        genVerifyPeerCertificateFunc parseCert x509Verify instanceName pool (raw :: rest) vchains
          = some VerifyErr.parseFailure)
    ∧ (∀ raw rest cert, parseCert raw = some cert → x509Verify cert pool [] = false →
        genVerifyPeerCertificateFunc parseCert x509Verify instanceName pool (raw :: rest) vchains
          = some VerifyErr.chainFailure)
    ∧ (∀ raw rest cert, parseCert raw = some cert → x509Verify cert pool [] = true →
        cert.subjectCN ≠ instanceName →
        genVerifyPeerCertificateFunc parseCert x509Verify instanceName pool (raw :: rest) vchains
          = some (VerifyErr.cnMismatch cert.subjectCN instanceName))
    ∧ (∀ rawCerts,
        genVerifyPeerCertificateFunc parseCert x509Verify instanceName pool rawCerts vchains = none
          ↔ ∃ raw rest cert, rawCerts = raw :: rest ∧ parseCert raw = some cert
              ∧ x509Verify cert pool [] = true ∧ cert.subjectCN = instanceName) := by
  refine ⟨rfl, ?_, ?_, ?_, ?_⟩
  · intro raw rest hp
    simp [genVerifyPeerCertificateFunc, hp]
  · intro raw rest cert hp hv
    simp [genVerifyPeerCertificateFunc, hp, hv]
  · intro raw rest cert hp hv hcn
    simp [genVerifyPeerCertificateFunc, hp, hv, hcn]
  · intro rawCerts
    constructor
    · intro h
      match rawCerts with
      | [] => simp [genVerifyPeerCertificateFunc] at h
      | raw :: rest =>
        cases hp : parseCert raw with
        | none => simp [genVerifyPeerCertificateFunc, hp] at h
        | some cert =>
          cases hv : x509Verify cert pool [] with
          | false => simp [genVerifyPeerCertificateFunc, hp, hv] at h
          | true =>
            by_cases hcn : cert.subjectCN = instanceName
            · exact ⟨raw, rest, cert, rfl, hp, hv, hcn⟩
            · simp [genVerifyPeerCertificateFunc, hp, hv, hcn] at h
    · rintro ⟨raw, rest, cert, rfl, hp, hv, hcn⟩
      simp [genVerifyPeerCertificateFunc, hp, hv, hcn]

/-- C5 witness: concrete runs through each check, with a pool mismatch for the
chain case and a case-sensitivity mismatch (`"DB-INSTANCE"` vs
`"db-instance"`) for the identity case. -/
theorem C5_peer_verifier_checks_witness :
    genVerifyPeerCertificateFunc demoParseGood chainVerify "db-instance" ["pinned-root"] [] []
        = some VerifyErr.noCertificate
    ∧ genVerifyPeerCertificateFunc demoParseGood chainVerify "db-instance" ["pinned-root"] [[9]] []
        = some VerifyErr.parseFailure
    ∧ genVerifyPeerCertificateFunc demoParseGood chainVerify "db-instance" ["other-root"] [[0]] []
        = some VerifyErr.chainFailure
    ∧ genVerifyPeerCertificateFunc demoParseGood chainVerify "DB-INSTANCE" ["pinned-root"] [[0]] []
        = some (VerifyErr.cnMismatch "db-instance" "DB-INSTANCE")
    ∧ genVerifyPeerCertificateFunc demoParseGood chainVerify "db-instance" ["pinned-root"] [[0]] []
        = none :=
  ⟨(C5_peer_verifier_checks demoParseGood chainVerify "db-instance" ["pinned-root"] []).1,
   (C5_peer_verifier_checks demoParseGood chainVerify "db-instance" ["pinned-root"] []).2.1
      [9] [] (by decide),
   (C5_peer_verifier_checks demoParseGood chainVerify "db-instance" ["other-root"] []).2.2.1
      [0] [] { subjectCN := "db-instance", issuer := "pinned-root" } (by decide) (by decide),
   (C5_peer_verifier_checks demoParseGood chainVerify "DB-INSTANCE" ["pinned-root"] []).2.2.2.1
      [0] [] { subjectCN := "db-instance", issuer := "pinned-root" } (by decide) (by decide)
      (by decide),
   ((C5_peer_verifier_checks demoParseGood chainVerify "db-instance" ["pinned-root"] []).2.2.2.2
      [[0]]).mpr
      ⟨[0], [], { subjectCN := "db-instance", issuer := "pinned-root" },
        rfl, by decide, by decide, by decide⟩⟩

/-- An index with a value has to lie below the length. -/
theorem lt_length_of_get_q {α : Type} (l : List α) (i : Nat) (x : α)
    (h : l[i]? = some x) : i < l.length :=
  (List.getElem?_eq_some_iff.mp h).choose

/-- Reading back the position just written. -/
theorem get_q_set_self {α : Type} (l : List α) (i : Nat) (y : α)
    (h : i < l.length) : (l.set i y)[i]? = some y := by
  simp [List.getElem?_set_self, h]

/-- Writing one position leaves the others unchanged. -/
theorem get_q_set_other {α : Type} (l : List α) (i j : Nat) (y : α)
    (h : i ≠ j) : (l.set i y)[j]? = l[j]? := by
  rw [List.getElem?_set_ne h]

/-- Every position of a replicated list holds the replicated value. -/
theorem get_q_replicate {α : Type} (a : α) (n i : Nat) (h : i < n) :
    (List.replicate n a)[i]? = some a := by
  simp [List.getElem?_replicate, h]

/-- `countP` over a cons, in the arithmetic form the proofs below use. -/
theorem countP_cons_eq {α : Type} (p : α → Bool) (a : α) (l : List α) :
    (a :: l).countP p = l.countP p + (if p a then 1 else 0) := by
  simp [List.countP_cons]

/-- A count never exceeds the length. -/
theorem countP_le_len {α : Type} (p : α → Bool) : ∀ l : List α, l.countP p ≤ l.length := by
  intro l
  induction l with
  | nil => simp
  | cons a t ih =>
    rw [countP_cons_eq]
    simp only [List.length_cons]
    have : (if p a then 1 else 0) ≤ 1 := by split <;> omega
    omega

/-- Replacing one element moves the count by the difference of the two
elements' predicate values (stated addition-only to stay in `Nat`). -/
theorem countP_set_balance {α : Type} (p : α → Bool) :
    ∀ (l : List α) (i : Nat) (x y : α), l[i]? = some x →
      (l.set i y).countP p + (if p x then 1 else 0)
        = l.countP p + (if p y then 1 else 0) := by
  intro l
  induction l with
  | nil => intro i x y h; simp at h
  | cons a t ih =>
    intro i x y h
    cases i with
    | zero =>
      simp only [List.getElem?_cons_zero, Option.some.injEq] at h
      subst h
      simp only [List.set]
      rw [countP_cons_eq, countP_cons_eq]
      omega
    | succ j =>
      simp only [List.getElem?_cons_succ] at h
      simp only [List.set]
      rw [countP_cons_eq, countP_cons_eq]
      have := ih j x y h
      omega

/-- A position whose element fails the predicate pushes the count strictly
below the length. -/
theorem countP_lt_length_of_get {α : Type} (p : α → Bool) :
    ∀ (l : List α) (i : Nat) (x : α), l[i]? = some x → p x = false →
      l.countP p < l.length := by
  intro l
  induction l with
  | nil => intro i x h _; simp at h
  | cons a t ih =>
    intro i x h hp
    rw [countP_cons_eq]
    simp only [List.length_cons]
    cases i with
    | zero =>
      simp only [List.getElem?_cons_zero, Option.some.injEq] at h
      subst h
      have hif : (if p a then 1 else 0) = 0 := by simp [hp]
      have := countP_le_len p t
      omega
    | succ j =>
      simp only [List.getElem?_cons_succ] at h
      have := ih j x h hp
      have hle : (if p a then 1 else 0) ≤ 1 := by split <;> omega
      omega

/-- A position whose element meets the predicate makes the count positive. -/
theorem countP_pos_of_get {α : Type} (p : α → Bool) :
    ∀ (l : List α) (i : Nat) (x : α), l[i]? = some x → p x = true → 0 < l.countP p := by
  intro l
  induction l with
  | nil => intro i x h _; simp at h
  | cons a t ih =>
    intro i x h hp
    rw [countP_cons_eq]
    cases i with
    | zero =>
      simp only [List.getElem?_cons_zero, Option.some.injEq] at h
      subst h
      have hif : (if p a then 1 else 0) = 1 := by simp [hp]
      omega
    | succ j =>
      simp only [List.getElem?_cons_succ] at h
      have := ih j x h hp
      omega

/-- Counting over a replicated element that fails the predicate gives zero. -/
theorem countP_replicate_false {α : Type} (p : α → Bool) (a : α) (hp : p a = false) :
    ∀ n : Nat, (List.replicate n a).countP p = 0 := by
  intro n
  induction n with
  | zero => simp
  | succ m ih =>
    simp only [List.replicate]
    rw [countP_cons_eq, ih]
    simp [hp]

/-- Admitted in-flight sessions are in particular in flight. -/
theorem countAdmitted_le_countRunning :
    ∀ ps : List SessPhase, countAdmitted ps ≤ countRunning ps := by
  intro ps
  induction ps with
  | nil => simp [countAdmitted, countRunning]
  | cons a t ih =>
    unfold countAdmitted countRunning at *
    rw [countP_cons_eq, countP_cons_eq]
    have hle : (if isAdmitted a then 1 else 0) ≤ (if isRunning a then 1 else 0) := by
      cases a with
      | idle => simp [isAdmitted, isRunning]
      | running b => cases b <;> simp [isAdmitted, isRunning]
      | done => simp [isAdmitted, isRunning]
    omega

/-- One step of the admission machine preserves the invariant. -/
theorem admStep_preserves (maxConns n : Nat) (hn : n < U64) (s s2 : AdmState) (l : StepLabel)
    (hinv : AdmInv maxConns n s) (h : admStep maxConns s l = some s2) :
    AdmInv maxConns n s2 := by
  obtain ⟨hlen, hcnt, hadm⟩ := hinv
  have hcnt2 : s.counter = List.countP isRunning s.phases := hcnt
  cases l with
  | start i =>
    cases hg : s.phases[i]? with
    | none => simp [admStep, hg] at h
    | some ph =>
      cases ph with
      | running b => simp [admStep, hg] at h
      | done => simp [admStep, hg] at h
      | idle =>
        simp only [admStep, hg, Option.some.injEq] at h
        subst h
        have hrunlt : List.countP isRunning s.phases < s.phases.length :=
          countP_lt_length_of_get isRunning s.phases i SessPhase.idle hg rfl
        have hmodeq : (s.counter + 1) % U64 = s.counter + 1 :=
          Nat.mod_eq_of_lt (by omega)
        have hbalR := countP_set_balance isRunning s.phases i SessPhase.idle
          (SessPhase.running
            (!(decide (0 < maxConns) && decide (maxConns < (s.counter + 1) % U64)))) hg
        have e1 : (if isRunning SessPhase.idle then 1 else 0) = 0 := rfl
        have e2 : ∀ c : Bool, (if isRunning (SessPhase.running c) then 1 else 0) = 1 :=
          fun _ => rfl
        rw [e1, e2] at hbalR
        refine ⟨by simp [hlen], ?_, ?_⟩
        · show (s.counter + 1) % U64 = List.countP isRunning (s.phases.set i _)
          omega
        · intro hmax
          have hbalA := countP_set_balance isAdmitted s.phases i SessPhase.idle
            (SessPhase.running
              (!(decide (0 < maxConns) && decide (maxConns < (s.counter + 1) % U64)))) hg
          have e3 : (if isAdmitted SessPhase.idle then 1 else 0) = 0 := rfl
          rw [e3] at hbalA
          have hadm3 : List.countP isAdmitted s.phases ≤ maxConns := hadm hmax
          have hml2 : List.countP isAdmitted s.phases ≤ List.countP isRunning s.phases :=
            countAdmitted_le_countRunning s.phases
          have hp : decide (0 < maxConns) = true := decide_eq_true hmax
          show List.countP isAdmitted (s.phases.set i _) ≤ maxConns
          cases hd : decide (maxConns < (s.counter + 1) % U64) with
          | true =>
            rw [hp, hd] at hbalA
            rw [hp]
            have e4 : (if isAdmitted (SessPhase.running (!(true && true))) then 1 else 0) = 0 :=
              rfl
            rw [e4] at hbalA
            omega
          | false =>
            rw [hp, hd] at hbalA
            rw [hp]
            have e5 : (if isAdmitted (SessPhase.running (!(true && false))) then 1 else 0) = 1 :=
              rfl
            rw [e5] at hbalA
            have hval : ¬ (maxConns < (s.counter + 1) % U64) := of_decide_eq_false hd
            rw [hmodeq] at hval
            omega
  | finish i =>
    cases hg : s.phases[i]? with
    | none => simp [admStep, hg] at h
    | some ph =>
      cases ph with
      | idle => simp [admStep, hg] at h
      | done => simp [admStep, hg] at h
      | running b =>
        simp only [admStep, hg, Option.some.injEq] at h
        subst h
        have hrunpos : 0 < List.countP isRunning s.phases :=
          countP_pos_of_get isRunning s.phases i (SessPhase.running b) hg rfl
        have hrunle : List.countP isRunning s.phases ≤ s.phases.length :=
          countP_le_len isRunning s.phases
        have hU : 0 < U64 := by unfold U64; positivity
        have hmodeq : (s.counter + (U64 - 1)) % U64 = s.counter - 1 := by
          have h1 : s.counter + (U64 - 1) = (s.counter - 1) + U64 := by omega
          rw [h1, Nat.add_mod_right]
          exact Nat.mod_eq_of_lt (by omega)
        have hbalR := countP_set_balance isRunning s.phases i (SessPhase.running b)
          SessPhase.done hg
        have e2 : (if isRunning (SessPhase.running b) then 1 else 0) = 1 := rfl
        have e6 : (if isRunning SessPhase.done then 1 else 0) = 0 := rfl
        rw [e2, e6] at hbalR
        refine ⟨by simp [hlen], ?_, ?_⟩
        · show (s.counter + (U64 - 1)) % U64
              = List.countP isRunning (s.phases.set i SessPhase.done)
          rw [hmodeq]
          omega
        · intro hmax
          have hbalA := countP_set_balance isAdmitted s.phases i (SessPhase.running b)
            SessPhase.done hg
          have e7 : (if isAdmitted SessPhase.done then 1 else 0) = 0 := rfl
          rw [e7] at hbalA
          have hadm3 : List.countP isAdmitted s.phases ≤ maxConns := hadm hmax
          show List.countP isAdmitted (s.phases.set i SessPhase.done) ≤ maxConns
          omega

/-- A whole interleaving preserves the invariant. -/
theorem admRun_preserves (maxConns n : Nat) (hn : n < U64) :
    ∀ (ls : List StepLabel) (s s2 : AdmState),
      AdmInv maxConns n s → admRun maxConns s ls = some s2 → AdmInv maxConns n s2 := by
  intro ls
  induction ls with
  | nil =>
    intro s s2 hi h
    simp only [admRun, Option.some.injEq] at h
    subst h
    exact hi
  | cons l ls ih =>
    intro s s2 hi h
    cases hstep : admStep maxConns s l with
    | none => simp [admRun, hstep] at h
    | some s1 =>
      simp only [admRun, hstep] at h
      exact ih s1 s2 (admStep_preserves maxConns n hn s s1 l hi hstep) h

/-- C1 counterexample: with `MaxConnections = 1` and one session already
admitted, a second concurrent session executes its entry increment before the
limit check denies it, and the shared counter reaches 2 > 1 at that
intermediate state — the claim that the counter never exceeds the configured
maximum at every intermediate state is false. -/
theorem C1_counterexample :
    admRun 1 (admInit 2) [StepLabel.start 0, StepLabel.start 1]
        = some { counter := 2, phases := [SessPhase.running true, SessPhase.running false] }
    ∧ 1 < ({ counter := 2,
             phases := [SessPhase.running true, SessPhase.running false] } : AdmState).counter := by
  decide

/-- C1 (amended): for every interleaving, the counter always equals the number
of in-flight `handleConn` calls (so the uint64 arithmetic never underflows —
the counter never goes negative — and it is bounded by the number of
sessions), and with a positive `MaxConnections` the number of concurrently
*admitted* sessions never exceeds the maximum; the raw counter itself can
transiently exceed the maximum only while denied attempts are in flight. -/
theorem C1_amended_admission_invariant (maxConns n : Nat) (hn : n < U64)
    (ls : List StepLabel) (s : AdmState)
    (h : admRun maxConns (admInit n) ls = some s) :
    s.counter = countRunning s.phases
    ∧ s.counter ≤ n
    ∧ (0 < maxConns → countAdmitted s.phases ≤ maxConns) := by
  have hinit : AdmInv maxConns n (admInit n) := by
    refine ⟨by simp [admInit], ?_, ?_⟩
    · have h0 : countRunning (admInit n).phases = 0 :=
        countP_replicate_false isRunning SessPhase.idle rfl n
      have hC : (admInit n).counter = 0 := rfl
      omega
    · intro _
      have h0 : countAdmitted (admInit n).phases = 0 :=
        countP_replicate_false isAdmitted SessPhase.idle rfl n
      omega
  obtain ⟨hlen, hc, ha⟩ := admRun_preserves maxConns n hn ls (admInit n) s hinit h
  refine ⟨hc, ?_, ha⟩
  rw [hc]
  have := countP_le_len isRunning s.phases
  unfold countRunning
  omega

/-- C1 witness: the invariant evaluated after the interleaving
`start 0, start 1, finish 1` with `MaxConnections = 1` over two sessions. -/
theorem C1_amended_admission_invariant_witness :
    (⟨1, [SessPhase.running true, SessPhase.done]⟩ : AdmState).counter
        = countRunning (⟨1, [SessPhase.running true, SessPhase.done]⟩ : AdmState).phases
    ∧ (⟨1, [SessPhase.running true, SessPhase.done]⟩ : AdmState).counter ≤ 2
    ∧ (0 < 1 →
        countAdmitted (⟨1, [SessPhase.running true, SessPhase.done]⟩ : AdmState).phases ≤ 1) :=
  C1_amended_admission_invariant 1 2 (by decide)
    [StepLabel.start 0, StepLabel.start 1, StepLabel.finish 1]
    ⟨1, [SessPhase.running true, SessPhase.done]⟩ (by decide)

/-- C2 counterexample: the admission step that *denies* session 1 (it ends in
phase `running false`) has already incremented the counter from 1 to 2 on that
session's behalf — `handleConn` increments first and checks the limit after,
so "admission denial never increments the counter" is false. -/
theorem C2_counterexample :
    admRun 1 (admInit 2) [StepLabel.start 0]
        = some { counter := 1, phases := [SessPhase.running true, SessPhase.idle] }
    ∧ admStep 1 { counter := 1, phases := [SessPhase.running true, SessPhase.idle] }
        (StepLabel.start 1)
        = some { counter := 2, phases := [SessPhase.running true, SessPhase.running false] } := by
  decide

end SqlProxy

namespace SqlProxy

/-- A `start i` label adds one to `countStart i`. -/
theorem countStart_cons_start_self (i : Nat) (ls : List StepLabel) :
    countStart i (StepLabel.start i :: ls) = countStart i ls + 1 := by
  unfold countStart
  rw [countP_cons_eq]
  simp

/-- A `start j` label with `j ≠ i` leaves `countStart i` unchanged. -/
theorem countStart_cons_start_ne (i j : Nat) (h : j ≠ i) (ls : List StepLabel) :
    countStart i (StepLabel.start j :: ls) = countStart i ls := by
  unfold countStart
  rw [countP_cons_eq]
  simp [h]

/-- A `start` label never changes `countFinish i`. -/
theorem countFinish_cons_start (i j : Nat) (ls : List StepLabel) :
    countFinish i (StepLabel.start j :: ls) = countFinish i ls := by
  unfold countFinish
  rw [countP_cons_eq]
  simp

/-- A `finish i` label adds one to `countFinish i`. -/
theorem countFinish_cons_finish_self (i : Nat) (ls : List StepLabel) :
    countFinish i (StepLabel.finish i :: ls) = countFinish i ls + 1 := by
  unfold countFinish
  rw [countP_cons_eq]
  simp

/-- A `finish j` label with `j ≠ i` leaves `countFinish i` unchanged. -/
theorem countFinish_cons_finish_ne (i j : Nat) (h : j ≠ i) (ls : List StepLabel) :
    countFinish i (StepLabel.finish j :: ls) = countFinish i ls := by
  unfold countFinish
  rw [countP_cons_eq]
  simp [h]

/-- A `finish` label never changes `countStart i`. -/
theorem countStart_cons_finish (i j : Nat) (ls : List StepLabel) :
    countStart i (StepLabel.finish j :: ls) = countStart i ls := by
  unfold countStart
  rw [countP_cons_eq]
  simp

/-- Inversion of one machine step: a valid step is a start on an idle session
or a finish on a running one, and only that session's phase changes. -/
theorem admStep_phases (maxConns : Nat) (s s1 : AdmState) (l : StepLabel)
    (h : admStep maxConns s l = some s1) :
    (∃ j bb, l = StepLabel.start j ∧ s.phases[j]? = some SessPhase.idle
        ∧ s1.phases = s.phases.set j (SessPhase.running bb))
    ∨ (∃ j bb, l = StepLabel.finish j ∧ s.phases[j]? = some (SessPhase.running bb)
        ∧ s1.phases = s.phases.set j SessPhase.done) := by
  cases l with
  | start j =>
    cases hg : s.phases[j]? with
    | none => simp [admStep, hg] at h
    | some ph =>
      cases ph with
      | running b => simp [admStep, hg] at h
      | done => simp [admStep, hg] at h
      | idle =>
        simp only [admStep, hg, Option.some.injEq] at h
        subst h
        exact Or.inl ⟨j, _, rfl, hg, rfl⟩
  | finish j =>
    cases hg : s.phases[j]? with
    | none => simp [admStep, hg] at h
    | some ph =>
      cases ph with
      | idle => simp [admStep, hg] at h
      | done => simp [admStep, hg] at h
      | running b =>
        simp only [admStep, hg, Option.some.injEq] at h
        subst h
        exact Or.inr ⟨j, b, rfl, hg, rfl⟩

/-- Phase bookkeeping along a run: the final phase of a session accounts for
its initial phase plus the labels of the interleaving that mention it. -/
theorem admRun_phase_counts (maxConns : Nat) :
    ∀ (ls : List StepLabel) (s s2 : AdmState), admRun maxConns s ls = some s2 →
      ∀ (i : Nat) (ph : SessPhase), s.phases[i]? = some ph →
        ∃ ph2, s2.phases[i]? = some ph2
          ∧ startedOf ph2 = startedOf ph + countStart i ls
          ∧ finishedOf ph2 = finishedOf ph + countFinish i ls := by
  intro ls
  induction ls with
  | nil =>
    intro s s2 h i ph hph
    simp only [admRun, Option.some.injEq] at h
    subst h
    exact ⟨ph, hph, by simp [countStart], by simp [countFinish]⟩
  | cons l ls ih =>
    intro s s2 h i ph hph
    cases hstep : admStep maxConns s l with
    | none => simp [admRun, hstep] at h
    | some s1 =>
      simp only [admRun, hstep] at h
      rcases admStep_phases maxConns s s1 l hstep with
        ⟨j, bb, rfl, hg, hphases⟩ | ⟨j, bb, rfl, hg, hphases⟩
      · by_cases hij : i = j
        · subst hij
          rw [hph] at hg
          injection hg with hg
          subst hg
          have hidx := lt_length_of_get_q s.phases i SessPhase.idle hph
          have hget1 : s1.phases[i]? = some (SessPhase.running bb) := by
            rw [hphases]
            exact get_q_set_self s.phases i (SessPhase.running bb) hidx
          obtain ⟨ph2, hget2, hst, hfin⟩ := ih s1 s2 h i (SessPhase.running bb) hget1
          refine ⟨ph2, hget2, ?_, ?_⟩
          · rw [countStart_cons_start_self]
            simp only [startedOf] at hst ⊢
            omega
          · rw [countFinish_cons_start]
            simp only [finishedOf] at hfin ⊢
            omega
        · have hget1 : s1.phases[i]? = some ph := by
            rw [hphases, get_q_set_other s.phases j i (SessPhase.running bb)
              (fun hh => hij hh.symm)]
            exact hph
          obtain ⟨ph2, hget2, hst, hfin⟩ := ih s1 s2 h i ph hget1
          refine ⟨ph2, hget2, ?_, ?_⟩
          · rw [countStart_cons_start_ne i j (fun hh => hij hh.symm) ls]
            omega
          · rw [countFinish_cons_start]
            omega
      · by_cases hij : i = j
        · subst hij
          rw [hph] at hg
          injection hg with hg
          subst hg
          have hidx := lt_length_of_get_q s.phases i (SessPhase.running bb) hph
          have hget1 : s1.phases[i]? = some SessPhase.done := by
            rw [hphases]
            exact get_q_set_self s.phases i SessPhase.done hidx
          obtain ⟨ph2, hget2, hst, hfin⟩ := ih s1 s2 h i SessPhase.done hget1
          refine ⟨ph2, hget2, ?_, ?_⟩
          · rw [countStart_cons_finish]
            simp only [startedOf] at hst ⊢
            omega
          · rw [countFinish_cons_finish_self]
            simp only [finishedOf] at hfin ⊢
            omega
        · have hget1 : s1.phases[i]? = some ph := by
            rw [hphases, get_q_set_other s.phases j i SessPhase.done
              (fun hh => hij hh.symm)]
            exact hph
          obtain ⟨ph2, hget2, hst, hfin⟩ := ih s1 s2 h i ph hget1
          refine ⟨ph2, hget2, ?_, ?_⟩
          · rw [countStart_cons_finish]
            omega
          · rw [countFinish_cons_finish_ne i j (fun hh => hij hh.symm) ls]
            omega

/-- C2 (amended): denial does increment the counter, but the increment is
paired with the deferred decrement of the same `handleConn` call, so the net
effect is zero; and every session — admitted or denied, failing at any stage —
decrements at most once ever and exactly once upon termination: a terminated
session accounts for exactly one increment and one decrement, an in-flight one
for exactly one increment and no decrement yet. -/
theorem C2_amended_single_release (maxConns n : Nat) (ls : List StepLabel) (s : AdmState)
    (h : admRun maxConns (admInit n) ls = some s) (i : Nat) (hi : i < n) :
    countFinish i ls ≤ 1
    ∧ (s.phases[i]? = some SessPhase.done →
        countStart i ls = 1 ∧ countFinish i ls = 1)
    ∧ (∀ b, s.phases[i]? = some (SessPhase.running b) →
        countStart i ls = 1 ∧ countFinish i ls = 0) := by
  have hinit : (admInit n).phases[i]? = some SessPhase.idle := by
    show (List.replicate n SessPhase.idle)[i]? = some SessPhase.idle
    exact get_q_replicate SessPhase.idle n i hi
  obtain ⟨ph2, hget, hst, hfin⟩ :=
    admRun_phase_counts maxConns ls (admInit n) s h i SessPhase.idle hinit
  simp only [startedOf, finishedOf, Nat.zero_add] at hst hfin
  refine ⟨?_, ?_, ?_⟩
  · cases ph2 <;> simp only [startedOf, finishedOf] at hst hfin <;> omega
  · intro hdone
    rw [hget] at hdone
    injection hdone with hdone
    subst hdone
    simp only [startedOf, finishedOf] at hst hfin
    omega
  · intro b hb
    rw [hget] at hb
    injection hb with hb
    subst hb
    simp only [startedOf, finishedOf] at hst hfin
    omega

/-- C2 amended witness: one session started and terminated under limit 5. -/
theorem C2_amended_single_release_witness :
    countFinish 0 [StepLabel.start 0, StepLabel.finish 0] ≤ 1
    ∧ (({ counter := 0, phases := [SessPhase.done] } : AdmState).phases[0]?
          = some SessPhase.done →
        countStart 0 [StepLabel.start 0, StepLabel.finish 0] = 1
        ∧ countFinish 0 [StepLabel.start 0, StepLabel.finish 0] = 1)
    ∧ (∀ b, ({ counter := 0, phases := [SessPhase.done] } : AdmState).phases[0]?
          = some (SessPhase.running b) →
        countStart 0 [StepLabel.start 0, StepLabel.finish 0] = 1
        ∧ countFinish 0 [StepLabel.start 0, StepLabel.finish 0] = 0) :=
  C2_amended_single_release 5 1 [StepLabel.start 0, StepLabel.finish 0]
    { counter := 0, phases := [SessPhase.done] } (by decide) 0 (by decide)

/-- C10: the verifier looks only at `rawCerts[0]` (its result is invariant
under the rest of the presented chain) and calls chain verification with no
intermediates (`VerifyOptions` carries only `Roots`); consequently a leaf that
needs an intermediate to reach the pinned root is rejected with a chain
failure even when the peer presented the complete chain including that
intermediate. -/
theorem C10_leaf_only_no_intermediates :
    (∀ (parseCert : RawBytes → Option MCert)
       (x509Verify : MCert → RootPool → List MCert → Bool)
       (instanceName : String) (pool : RootPool) (vchains : List MCert)
       (raw0 : RawBytes) (rest1 rest2 : List RawBytes),
       genVerifyPeerCertificateFunc parseCert x509Verify instanceName pool (raw0 :: rest1) vchains
         = genVerifyPeerCertificateFunc parseCert x509Verify instanceName pool (raw0 :: rest2) vchains)
    ∧ chainVerify demoLeaf ["pinned-root"] [demoInter] = true
    ∧ chainVerify demoLeaf ["pinned-root"] [] = false
    ∧ genVerifyPeerCertificateFunc demoParse chainVerify "db-instance" ["pinned-root"]
        [[0], [1]] [] = some VerifyErr.chainFailure := by
  refine ⟨fun _ _ _ _ _ _ _ _ => rfl, by decide, by decide, by decide⟩

/-- C3 (code bug): on a credential-source failure `handleConn` returns without
closing the accepted local connection, and on a handshake failure it closes
only `secureConn` (the remote side) and again leaves the local connection
open — the claim that every per-connection failure closes every opened
endpoint, including the accepted local connection, fails on these two paths
(denial and dial failure do close it, and the admission ticket is released on
every path). -/
theorem C3_local_endpoint_leak :
    ((handleConnModel ⟨false, false, true, true, false, false, true⟩).result
        = some SessErr.certFailure
      ∧ (handleConnModel ⟨false, false, true, true, false, false, true⟩).ticketReleased = true
      ∧ (handleConnModel ⟨false, false, true, true, false, false, true⟩).localClosed = false)
    ∧ ((handleConnModel ⟨false, true, true, true, false, false, false⟩).result
        = some SessErr.handshakeFailure
      ∧ (handleConnModel ⟨false, true, true, true, false, false, false⟩).remoteClosed = true
      ∧ (handleConnModel ⟨false, true, true, true, false, false, false⟩).ticketReleased = true
      ∧ (handleConnModel ⟨false, true, true, true, false, false, false⟩).localClosed = false)
    ∧ ((handleConnModel ⟨true, true, true, true, false, false, true⟩).localClosed = true
      ∧ (handleConnModel ⟨false, true, false, true, false, false, true⟩).localClosed = true) := by
  decide

/-- C9 (code bug): the keepalive block after the dial inspects `conn` — the
accepted local socket, which `listen` already configured — and never the
dialed remote socket, so `kaSetOnRemote` is `false` on every path; keepalive
support and failures never change the session's result (log, do not fail);
and on a session that reaches the relay with a capable local socket, keepalive
is enabled on the local side only. -/
theorem C9_remote_keepalive_never_enabled (env : SessEnv) (b1 b2 b3 : Bool) :
    (handleConnModel env).kaSetOnRemote = false
    ∧ (handleConnModel { env with localSupportsKA := b1, kaSetFails := b2, kaPeriodFails := b3 }).result = (handleConnModel env).result
    ∧ (handleConnModel ⟨false, true, true, true, false, false, true⟩).kaSetOnLocal = true := by
  rcases env with ⟨d, c, dl, ka, kf, kp, hs⟩
  cases d <;> cases c <;> cases dl <;> cases hs <;> simp [handleConnModel]

/-- C9 witness: a session whose local socket lacks keepalive support gets the
same result as one where it is supported, and the remote side never gets
keepalive. -/
theorem C9_remote_keepalive_never_enabled_witness :
    (handleConnModel ⟨false, true, true, false, true, false, true⟩).kaSetOnRemote = false
    ∧ (handleConnModel ⟨false, true, true, true, false, false, true⟩).result
        = (handleConnModel ⟨false, true, true, false, true, false, true⟩).result
    ∧ (handleConnModel ⟨false, true, true, true, false, false, true⟩).kaSetOnLocal = true :=
  C9_remote_keepalive_never_enabled ⟨false, true, true, false, true, false, true⟩
    true false false

/-- C6 counterexample: after `net.Listen` fails, `Run` neither aborts nor
surfaces the bind error — it keeps looping until the context is cancelled, and
then returns the shutdown outcome (here `nil`), not the listen error.  The
claim that `Run` surfaces bind/fatal-accept errors directly as its result is
false. -/
theorem C6_counterexample :
    RunModel (some "listen tcp 127.0.0.1:3307: bind: address already in use") false none = none
    ∧ RunModel (some "listen tcp 127.0.0.1:3307: bind: address already in use") true none
        = some none :=
  ⟨rfl, rfl⟩

/-- C6 (amended): a bind failure makes `listen` return the wrapped error at
once, and a non-temporary accept error closes the listener and terminates the
accept loop with the wrapped error, while a temporary accept error is retried
with the listener open; but these errors only reach the log — `Run`'s result
is independent of the `listen` goroutine's error and is determined solely by
cancellation and the shutdown outcome. -/
theorem C6_amended_listen_error_logged_only (e m : String) (evs : List AcceptEv) (d k : Nat)
    (cancelled : Bool) (sd : Option (Nat × Nat)) (o1 o2 : Option String) :
    (listenModel (some e) evs).retErr = some ("error net.Listen: " ++ e)
    ∧ (listenModel (some e) evs).listenerClosed = false
    ∧ listenLoop (AcceptEv.fatalErr m :: evs) d k
        = { dispatched := d, kaEnabled := k, listenerClosed := true,
            retErr := some ("error in accept: " ++ m) }
    ∧ listenLoop (AcceptEv.tempErr :: evs) d k = listenLoop evs d k
    ∧ RunModel o1 cancelled sd = RunModel o2 cancelled sd :=
  ⟨rfl, rfl, rfl, rfl, rfl⟩

/-- C6 amended witness: a concrete bind failure, a concrete fatal accept
error, a retried temporary error, and `Run` ignoring the listen error. -/
theorem C6_amended_listen_error_logged_only_witness :
    (listenModel (some "bind refused") []).retErr
        = some ("error net.Listen: " ++ "bind refused")
    ∧ (listenModel (some "bind refused") []).listenerClosed = false
    ∧ listenLoop [AcceptEv.fatalErr "reset"] 0 0
        = { dispatched := 0, kaEnabled := 0, listenerClosed := true,
            retErr := some ("error in accept: " ++ "reset") }
    ∧ listenLoop [AcceptEv.tempErr] 0 0 = listenLoop [] 0 0
    ∧ RunModel (some "x") true (some (2, 1000)) = RunModel none true (some (2, 1000)) :=
  C6_amended_listen_error_logged_only "bind refused" "reset" [] 0 0 true (some (2, 1000))
    (some "x") none

/-- The drain loop reports success exactly when a poll observed zero within
the timeout or the count is zero when the timeout fires. -/
theorem shutdownModel_eq_none (ticks : List Nat) (atTimeout timeoutMs : Nat) :
    shutdownModel ticks atTimeout timeoutMs = none ↔ (0 ∈ ticks ∨ atTimeout = 0) := by
  induction ticks with
  | nil => by_cases ha : atTimeout = 0 <;> simp [shutdownModel, ha]
  | cons v vs ih =>
    by_cases hv : v = 0
    · subst hv
      simp [shutdownModel]
    · simp [shutdownModel, hv, Ne.symm hv, ih]

/-- When no poll reaches zero and connections remain at the deadline, the
drain loop fails with the exact remaining count and the timeout used. -/
theorem shutdownModel_failure (ticks : List Nat) (atTimeout timeoutMs : Nat)
    (hmem : (0 : Nat) ∉ ticks) (hpos : 0 < atTimeout) :
    shutdownModel ticks atTimeout timeoutMs = some (atTimeout, timeoutMs) := by
  induction ticks with
  | nil =>
    have ha : atTimeout ≠ 0 := by omega
    simp [shutdownModel, ha]
  | cons v vs ih =>
    have hv : v ≠ 0 := by
      intro hh
      exact hmem (by simp [hh])
    have hmem2 : (0 : Nat) ∉ vs := fun hh => hmem (List.mem_cons_of_mem v hh)
    simp [shutdownModel, hv, ih hmem2]

/-- C8: `Shutdown` polls the live count on a fixed 100 ms ticker; it returns
success (`nil`) exactly when the count reaches zero within the timeout (a zero
poll, or zero at the deadline), and otherwise returns — once the timeout has
fired, never later, since `ticks` holds only pre-deadline polls — a failure
carrying the exact remaining active count and the timeout duration used. -/
theorem C8_shutdown_drain (ticks : List Nat) (atTimeout timeoutMs : Nat) :
    shutdownPollIntervalMs = 100
    ∧ (shutdownModel ticks atTimeout timeoutMs = none ↔ (0 ∈ ticks ∨ atTimeout = 0))
    ∧ ((0 : Nat) ∉ ticks → 0 < atTimeout →
        shutdownModel ticks atTimeout timeoutMs = some (atTimeout, timeoutMs)) :=
  ⟨rfl, shutdownModel_eq_none ticks atTimeout timeoutMs,
    fun hm hp => shutdownModel_failure ticks atTimeout timeoutMs hm hp⟩

/-- C8 witness: three busy polls, one connection left at the deadline, a one
second timeout. -/
theorem C8_shutdown_drain_witness :
    shutdownModel [3, 2, 1] 1 1000 = some (1, 1000) :=
  (C8_shutdown_drain [3, 2, 1] 1 1000).2.2 (by decide) (by decide)

end SqlProxy
